import Mathlib

/-!
Verification development for the `zustand-computed-property` dependency
tracking core (`src/computed.ts`).

The embedding models the module's global mutable state (the tracking
stack, the `trackingDisabled` flag, and the per-node memoization state)
as an explicit `Machine` record threaded through a fuel-indexed
interpreter.  User-supplied `compute` / `selector` functions are
embedded as a small expression language (`Expr`) whose field reads go
through `proxyGet`, the model of the `Proxy` `get` handler installed by
`computedMiddleware`.  Machine integers and JS identity comparison are
modelled by a `Val` type with decidable equality (JS `!==` on the values
a store holds; `Object.is` coincides with it on the modelled values).

Invocation counters (`computeCount`, `selectorCount`) play the role of
the side-effect counters the repository's own tests use (`timesCalled`)
to observe whether a user function ran.
-/

namespace ZC

/-- JS values as far as the tracking core compares them: primitives by
value, objects by reference identity (`obj id`).  `undef` is JS
`undefined`, the initial value of every `let x;` variable in the source. -/
inductive Val where
  | num (n : Int)
  | str (s : String)
  | bool (b : Bool)
  | undef
  | obj (id : Nat)
deriving DecidableEq

/-- JS truthiness of a modelled value, used by `!prevDeps` in `watch`. -/
def truthy : Val → Bool
  | .num n => n != 0
  | .str s => s != ""
  | .bool b => b
  | .undef => false
  | .obj _ => true

/-- `TrackedDeps` from the source: parallel arrays of recorded keys and
the values observed for them (`entry.keys.push(param); entry.values.push(value)`). -/
structure TrackedDeps where
  keys : List String
  values : List Val
deriving DecidableEq

/-- User-supplied compute/selector bodies, embedded as a small language.
`read k` is a property access `state.k` on the proxied view; `untrack e`
is `untrack(() => e)`; `un`/`bin` combine results with pure functions;
`fail` models the user code raising an exception. -/
inductive Expr where
  | lit (v : Val)
  | read (k : String)
  | untrack (e : Expr)
  | un (f : Val → Val) (e : Expr)
  | bin (f : Val → Val → Val) (a b : Expr)
  | fail

/-- The immutable definition of a derivation node: `computed(compute)`
or `watch(selector, compute, eq)` from the source. -/
inductive NodeDef where
  | computedN (compute : Expr)
  | watchN (selector : Expr) (compute : Val → Val) (eq : Val → Val → Bool)

/-- The mutable closure state of a node.  For `computed`: `prevTracked`,
`prevValue`, `prevState`; for `watch`: `prevDeps`, `prevValue`,
`prevState`.  `prevValue`/`prevDeps` start as JS `undefined`;
`prevState` starts unassigned (`none`) and holds a view identity once
assigned. -/
inductive NodeState where
  | computedS (prevTracked : Option TrackedDeps) (prevValue : Val) (prevState : Option Nat)
  | watchS (prevDeps : Val) (prevValue : Val) (prevState : Option Nat)
deriving DecidableEq

/-- A raw state field either holds a plain value or a tagged resolvable
(derivation node), referenced by its index into the store's node list. -/
inductive FieldVal where
  | plain (v : Val)
  | node (i : Nat)
deriving DecidableEq

/-- A proxied state view: its JS object identity (`id`, what `===`
compares and what `prevState` stores) and the underlying raw fields. -/
structure View where
  id : Nat
  fields : String → FieldVal

/-- The module-global mutable state of `computed.ts` plus the per-node
states and observation counters.  `trackedStack` keeps its top at the
head of the list (the source keeps it at the end of the array); pushes
and pops below are written accordingly. -/
structure Machine where
  trackingDisabled : Bool
  trackedStack : List TrackedDeps
  nodes : List NodeState
  computeCount : Nat → Nat
  selectorCount : Nat → Nat

/-- Increment a per-node counter. -/
def bump (f : Nat → Nat) (i : Nat) : Nat → Nat :=
  fun j => if j = i then f j + 1 else f j

/-- The tracking step of the proxy `get` handler:
`if (!trackingDisabled && trackedStack.length > 0) { entry.keys.push(param); entry.values.push(value); }`. -/
def recordRead (k : String) (v : Val) (m : Machine) : Machine :=
  match m.trackingDisabled, m.trackedStack with
  | false, t :: rest =>
      { m with trackedStack := ⟨t.keys ++ [k], t.values ++ [v]⟩ :: rest }
  | _, _ => m

/-- `trackedStack.push({keys: [], values: []})`. -/
def pushFrame (m : Machine) : Machine :=
  { m with trackedStack := ⟨[], []⟩ :: m.trackedStack }

/-- `trackedStack.pop()` (the `finally` of `computed`). -/
def popFrame (m : Machine) : Machine :=
  { m with trackedStack := m.trackedStack.tail }

/-- Outcome of running a piece of the system: a value, a user exception
propagating (`err`), or fuel exhaustion of the interpreter (`oof`). -/
inductive Outcome (α : Type) where
  | ok (a : α)
  | err
  | oof
deriving DecidableEq

/-- Sequencing with JS exception propagation: run the continuation on a
normal value, let an exception (or fuel exhaustion) propagate with the
machine state it left behind. -/
def bindRes {α β : Type} (r : Machine × Outcome α) (f : Machine → α → Machine × Outcome β) :
    Machine × Outcome β :=
  match r with
  | (m, .ok a) => f m a
  | (m, .err) => (m, .err)
  | (m, .oof) => (m, .oof)

/-- The `try { ... } finally { trackedStack.pop() }` of `computed`: on
success the assignments (`f`) run before the pop; on an exception the
pop still runs and nothing else is assigned. -/
def tryFinallyPop (r : Machine × Outcome Val) (f : Machine → Val → Machine) :
    Machine × Outcome Val :=
  match r with
  | (m, .ok v) => (popFrame (f m v), .ok v)
  | (m, .err) => (popFrame m, .err)
  | (m, .oof) => (popFrame m, .oof)

mutual

/-- Evaluate an embedded compute/selector body against a view.  Field
reads go through `proxyGet`; `untrack` mirrors the source exactly:
save `trackingDisabled`, set it, run the body, restore in a `finally`. -/
def evalExpr (sd : List NodeDef) : Nat → Expr → View → Machine → Machine × Outcome Val
  | 0, _, _, m => (m, .oof)
  | fuel+1, e, V, m =>
    match e with
    | .lit v => (m, .ok v)
    | .read k => proxyGet sd fuel k V m
    | .untrack body =>
        let prev := m.trackingDisabled
        let r := evalExpr sd fuel body V { m with trackingDisabled := true }
        ({ r.1 with trackingDisabled := prev }, r.2)
    | .un f a =>
        bindRes (evalExpr sd fuel a V m) (fun m1 va => (m1, .ok (f va)))
    | .bin f a b =>
        bindRes (evalExpr sd fuel a V m) (fun m1 va =>
          bindRes (evalExpr sd fuel b V m1) (fun m2 vb => (m2, .ok (f va vb))))
    | .fail => (m, .err)

/-- The proxy `get` handler of `createProxy`: fetch the raw field value,
resolve it through the node if it is tagged resolvable (calling it with
the proxy itself), then record the (key, resolved value) pair into the
top tracking frame unless tracking is disabled or the stack is empty. -/
def proxyGet (sd : List NodeDef) : Nat → String → View → Machine → Machine × Outcome Val
  | 0, _, _, m => (m, .oof)
  | fuel+1, k, V, m =>
    match V.fields k with
    | .plain v => (recordRead k v m, .ok v)
    | .node i =>
        bindRes (resolve sd fuel i V m) (fun m1 v => (recordRead k v m1, .ok v))

/-- The dependency-check loop of `computed`:
`for (i...) if (state[keys[i]] !== values[i]) { recompute = true; break; }`.
`state` is the proxy, so each check is a `proxyGet` (it resolves nested
nodes and is itself subject to recording into any enclosing frame).
Returns `true` iff a mismatch was found (recompute needed). -/
def depCheck (sd : List NodeDef) : Nat → List String → List Val → View → Machine → Machine × Outcome Bool
  | 0, _, _, _, m => (m, .oof)
  | _+1, [], _, _, m => (m, .ok false)
  | fuel+1, k :: ks, values, V, m =>
    bindRes (proxyGet sd fuel k V m) (fun m1 cur =>
      if cur ≠ values.headD .undef then (m1, .ok true)
      else depCheck sd fuel ks values.tail V m1)

/-- One call of a node's resolvable closure (`resolvable(state)` in the
source), for both `computed` and `watch` nodes.  Mirrors the source
statement by statement, including: the identity fast path; the
dependency check; push/compute/pop with assignments before the `finally`
pop and `prevState = state` only on success; and for `watch` the
truthiness test `!prevDeps` and the fact that `prevState` is never
assigned. -/
def resolve (sd : List NodeDef) : Nat → Nat → View → Machine → Machine × Outcome Val
  | 0, _, _, m => (m, .oof)
  | fuel+1, i, V, m =>
    match sd.get? i, m.nodes.get? i with
    | some (.computedN compute), some (.computedS prevTracked prevValue prevState) =>
        if prevState = some V.id then
          (m, .ok prevValue)
        else
          bindRes
            (match prevTracked with
             | none => (m, Outcome.ok true)
             | some tr => depCheck sd fuel tr.keys tr.values V m)
            (fun m1 rec =>
              if rec then
                tryFinallyPop
                  (evalExpr sd fuel compute V
                    (pushFrame { m1 with computeCount := bump m1.computeCount i }))
                  (fun m3 v =>
                    { m3 with nodes := (m3.nodes.set i (NodeState.computedS (some (m3.trackedStack.headD ⟨[], []⟩)) v (some V.id))) })
              else
                match m1.nodes.get? i with
                | some (.computedS tr2 pv2 _) =>
                    ({ m1 with nodes := m1.nodes.set i (.computedS tr2 pv2 (some V.id)) },
                     .ok pv2)
                | _ => (m1, .err))
    | some (.watchN selector compute eqf), some (.watchS prevDeps prevValue prevState) =>
        if prevState = some V.id then
          (m, .ok prevValue)
        else
          bindRes
            (evalExpr sd fuel selector V { m with selectorCount := bump m.selectorCount i })
            (fun m1 nextDeps =>
              if !truthy prevDeps || !eqf prevDeps nextDeps then
                ({ m1 with
                    computeCount := bump m1.computeCount i,
                    nodes := m1.nodes.set i (.watchS nextDeps (compute nextDeps) prevState) },
                 .ok (compute nextDeps))
              else
                ({ m1 with nodes := m1.nodes.set i (.watchS nextDeps prevValue prevState) },
                 .ok prevValue))
    | _, _ => (m, .err)

end

/-- Resolve a node once per view in sequence, keeping the machine. -/
def resolveSeq (sd : List NodeDef) (fuel : Nat) (i : Nat) : List View → Machine → Machine
  | [], m => m
  | V :: rest, m => resolveSeq sd fuel i rest (resolve sd fuel i V m).1

/-- Stack discipline relating a machine to the machine any interpreter
step leaves behind: the tracking stack's depth is preserved on every
exit path (pushes and pops are matched via `finally`), and if tracking
was suppressed on entry then the stack is untouched entirely and the
suppression flag is still set. -/
def StackOk (m m' : Machine) : Prop :=
  m'.trackedStack.length = m.trackedStack.length ∧
  m'.nodes.length = m.nodes.length ∧
  (m.trackingDisabled = true → m'.trackedStack = m.trackedStack ∧ m'.trackingDisabled = true)

theorem StackOk.refl (m : Machine) : StackOk m m := ⟨rfl, rfl, fun h => ⟨rfl, h⟩⟩

theorem StackOk.trans {a b c : Machine} (h1 : StackOk a b) (h2 : StackOk b c) : StackOk a c := by
  refine ⟨h2.1.trans h1.1, h2.2.1.trans h1.2.1, fun h => ?_⟩
  obtain ⟨hs1, hf1⟩ := h1.2.2 h
  obtain ⟨hs2, hf2⟩ := h2.2.2 hf1
  exact ⟨hs2.trans hs1, hf2⟩

/-- Transport `StackOk` across a machine that agrees with `m1` on
stack, nodes length, and flag. -/
theorem StackOk.congr {m m1 m2 : Machine} (h1 : StackOk m m1)
    (hs : m2.trackedStack = m1.trackedStack)
    (hn : m2.nodes.length = m1.nodes.length)
    (hf : m2.trackingDisabled = m1.trackingDisabled) : StackOk m m2 := by
  refine ⟨hs ▸ h1.1, hn.trans h1.2.1, fun hflag => ?_⟩
  obtain ⟨ha, hb⟩ := h1.2.2 hflag
  exact ⟨hs.trans ha, hf.trans hb⟩

theorem recordRead_stackOk (k : String) (v : Val) (m : Machine) :
    StackOk m (recordRead k v m) := by
  unfold recordRead
  split
  · rename_i t rest hflag hstack
    exact ⟨by simp [hstack], rfl, fun h => by rw [h] at hflag; cases hflag⟩
  · exact StackOk.refl m

theorem recordRead_nodes (k : String) (v : Val) (m : Machine) :
    (recordRead k v m).nodes = m.nodes := by
  unfold recordRead; split <;> rfl

theorem recordRead_flag (k : String) (v : Val) (m : Machine) :
    (recordRead k v m).trackingDisabled = m.trackingDisabled := by
  unfold recordRead; split <;> rfl

theorem recordRead_computeCount (k : String) (v : Val) (m : Machine) :
    (recordRead k v m).computeCount = m.computeCount := by
  unfold recordRead; split <;> rfl

theorem recordRead_selectorCount (k : String) (v : Val) (m : Machine) :
    (recordRead k v m).selectorCount = m.selectorCount := by
  unfold recordRead; split <;> rfl

/-- If tracking is suppressed, the proxy's tracking step is a no-op. -/
theorem recordRead_of_disabled (k : String) (v : Val) (m : Machine)
    (h : m.trackingDisabled = true) : recordRead k v m = m := by
  unfold recordRead
  split
  · rename_i hflag hstack
    rw [h] at hflag; cases hflag
  · rfl

/-- Composition shape of the recompute branch: a dependency-check step,
then an evaluation between a push and a pop, preserves the discipline. -/
theorem stackOk_eval_pop {m m1 m3 mm : Machine}
    (h1 : StackOk m m1)
    (hlen : m3.trackedStack.length = m1.trackedStack.length + 1)
    (hnodes : m3.nodes.length = m1.nodes.length)
    (hsup : m1.trackingDisabled = true →
      m3.trackedStack = TrackedDeps.mk [] [] :: m1.trackedStack ∧ m3.trackingDisabled = true)
    (hms : mm.trackedStack = m3.trackedStack.tail)
    (hmn : mm.nodes.length = m3.nodes.length)
    (hmf : mm.trackingDisabled = m3.trackingDisabled) :
    StackOk m mm := by
  refine ⟨?_, hmn.trans (hnodes.trans h1.2.1), ?_⟩
  · rw [hms, List.length_tail, hlen, Nat.add_sub_cancel, h1.1]
  · intro hflag
    obtain ⟨hs1, hf1⟩ := h1.2.2 hflag
    obtain ⟨hs2, hf2⟩ := hsup hf1
    constructor
    · rw [hms, hs2, List.tail_cons, hs1]
    · rw [hmf, hf2]

/-- The stack-discipline invariant for all four interpreter functions at
every fuel and on every outcome: depth is restored on all exit paths,
and under suppression the stack and flag are left untouched. -/
theorem interp_stackOk (fuel : Nat) :
    (∀ sd e V m, StackOk m (evalExpr sd fuel e V m).1) ∧
    (∀ sd k V m, StackOk m (proxyGet sd fuel k V m).1) ∧
    (∀ sd ks vs V m, StackOk m (depCheck sd fuel ks vs V m).1) ∧
    (∀ sd i V m, StackOk m (resolve sd fuel i V m).1) := by
  induction fuel with
  | zero =>
      exact ⟨fun _ _ _ m => StackOk.refl m, fun _ _ _ m => StackOk.refl m,
        fun _ _ _ _ m => StackOk.refl m, fun _ _ _ m => StackOk.refl m⟩
  | succ n ih =>
      obtain ⟨ihE, ihP, ihD, ihR⟩ := ih
      have hE : ∀ sd e V m, StackOk m (evalExpr sd (n+1) e V m).1 := by
        intro sd e V m
        cases e with
        | lit v => exact StackOk.refl m
        | read k => exact ihP sd k V m
        | untrack body =>
            simp only [evalExpr]
            have h := ihE sd body V { m with trackingDisabled := true }
            exact ⟨h.1, h.2.1, fun hf => ⟨(h.2.2 rfl).1, hf ▸ rfl⟩⟩
        | un f a =>
            simp only [evalExpr]
            rcases h : evalExpr sd n a V m with ⟨m1, o⟩
            have h1 : StackOk m m1 := by have := ihE sd a V m; rw [h] at this; exact this
            cases o <;> simp only [bindRes] <;> exact h1
        | bin f a b =>
            simp only [evalExpr]
            rcases h : evalExpr sd n a V m with ⟨m1, o⟩
            have h1 : StackOk m m1 := by have := ihE sd a V m; rw [h] at this; exact this
            cases o with
            | ok va =>
                simp only [bindRes]
                rcases h2 : evalExpr sd n b V m1 with ⟨m2, o2⟩
                have hb : StackOk m1 m2 := by
                  have := ihE sd b V m1; rw [h2] at this; exact this
                cases o2 <;> simp only [bindRes] <;> exact h1.trans hb
            | err => exact h1
            | oof => exact h1
        | fail => exact StackOk.refl m
      have hP : ∀ sd k V m, StackOk m (proxyGet sd (n+1) k V m).1 := by
        intro sd k V m
        simp only [proxyGet]
        split
        · exact recordRead_stackOk _ _ m
        · rename_i i _
          rcases h : resolve sd n i V m with ⟨m1, o⟩
          have h1 : StackOk m m1 := by have := ihR sd i V m; rw [h] at this; exact this
          cases o with
          | ok v =>
              simp only [bindRes]
              exact h1.trans (recordRead_stackOk _ _ m1)
          | err => exact h1
          | oof => exact h1
      have hD : ∀ sd ks vs V m, StackOk m (depCheck sd (n+1) ks vs V m).1 := by
        intro sd ks vs V m
        cases ks with
        | nil => exact StackOk.refl m
        | cons k ks =>
            simp only [depCheck]
            rcases h : proxyGet sd n k V m with ⟨m1, o⟩
            have h1 : StackOk m m1 := by have := ihP sd k V m; rw [h] at this; exact this
            cases o with
            | ok cur =>
                simp only [bindRes]
                by_cases hc : cur ≠ vs.headD .undef
                · rw [if_pos hc]; exact h1
                · rw [if_neg hc]
                  have h2 : StackOk m1 (depCheck sd n ks vs.tail V m1).1 := ihD sd ks vs.tail V m1
                  exact h1.trans h2
            | err => exact h1
            | oof => exact h1
      refine ⟨hE, hP, hD, ?_⟩
      intro sd i V m
      simp only [resolve]
      split
      · -- computed def, computed state
        rename_i compute prevTracked prevValue prevState hsd hns
        split
        · exact StackOk.refl m
        · have hrec : ∀ m1 : Machine, StackOk m m1 →
              StackOk m (tryFinallyPop
                (evalExpr sd n compute V
                  (pushFrame { m1 with computeCount := bump m1.computeCount i }))
                (fun m3 v =>
                  { m3 with nodes := (m3.nodes.set i (NodeState.computedS (some (m3.trackedStack.headD ⟨[], []⟩)) v (some V.id))) })).1 := by
            intro m1 h1
            rcases hev : evalExpr sd n compute V
                (pushFrame { m1 with computeCount := bump m1.computeCount i }) with ⟨m3, oe⟩
            have h2 : StackOk (pushFrame { m1 with computeCount := bump m1.computeCount i }) m3 := by
              have := ihE sd compute V (pushFrame { m1 with computeCount := bump m1.computeCount i })
              rw [hev] at this; exact this
            have hlen : m3.trackedStack.length = m1.trackedStack.length + 1 := by
              have := h2.1; simpa [pushFrame] using this
            have hnodes : m3.nodes.length = m1.nodes.length := by
              have := h2.2.1; simpa [pushFrame] using this
            have hsup : m1.trackingDisabled = true →
                m3.trackedStack = TrackedDeps.mk [] [] :: m1.trackedStack ∧
                  m3.trackingDisabled = true := by
              intro hflag
              have := h2.2.2 (by simpa [pushFrame] using hflag)
              constructor
              · have := this.1; simpa [pushFrame] using this
              · exact this.2
            cases oe with
            | ok v =>
                simp only [tryFinallyPop]
                exact stackOk_eval_pop h1 hlen hnodes hsup rfl (List.length_set _ _ _) rfl
            | err =>
                simp only [tryFinallyPop]
                exact stackOk_eval_pop h1 hlen hnodes hsup rfl rfl rfl
            | oof =>
                simp only [tryFinallyPop]
                exact stackOk_eval_pop h1 hlen hnodes hsup rfl rfl rfl
          rcases prevTracked with _ | tr
          · simp only [bindRes, eq_self_iff_true, if_true]
            exact hrec m (StackOk.refl m)
          · rcases hdep : depCheck sd n tr.keys tr.values V m with ⟨m1, od⟩
            have h1 : StackOk m m1 := by
              have := ihD sd tr.keys tr.values V m; rw [hdep] at this; exact this
            cases od with
            | ok bb =>
                cases bb with
                | true =>
                    simp only [hdep, bindRes, eq_self_iff_true, if_true]
                    exact hrec m1 h1
                | false =>
                    simp only [hdep, bindRes, Bool.false_eq_true, if_false]
                    rcases hni : m1.nodes.get? i with _ | ns2
                    · simp only [hni]; exact h1
                    rcases ns2 with ⟨tr2, pv2, ps2⟩ | ⟨pd2, pv2, ps2⟩
                    · simp only [hni]
                      exact h1.congr rfl (List.length_set _ _ _) rfl
                    · simp only [hni]; exact h1
            | err => simp only [hdep, bindRes]; exact h1
            | oof => simp only [hdep, bindRes]; exact h1
      · -- watch def, watch state
        rename_i sel compute eqf pd pv ps hsd hns
        split
        · exact StackOk.refl m
        · rcases hev : evalExpr sd n sel V
              { m with selectorCount := bump m.selectorCount i } with ⟨m1, o⟩
          have h1 : StackOk m m1 := by
            have := ihE sd sel V { m with selectorCount := bump m.selectorCount i }
            rw [hev] at this
            exact ⟨this.1, this.2.1, fun hflag => this.2.2 hflag⟩
          cases o with
          | ok nd2 =>
              simp only [bindRes]
              by_cases htr : (!truthy pd || !eqf pd nd2) = true
              · rw [if_pos htr]
                exact h1.congr rfl (List.length_set _ _ _) rfl
              · rw [if_neg htr]
                exact h1.congr rfl (List.length_set _ _ _) rfl
          | err => exact h1
          | oof => exact h1
      · -- shape mismatch: error result, machine untouched
        exact StackOk.refl m

/-- Initial closure state of a node, as created by `computed`/`watch`. -/
def initState : NodeDef → NodeState
  | .computedN _ => .computedS none .undef none
  | .watchN _ _ _ => .watchS .undef .undef none

/-- The machine at store creation: tracking enabled, empty stack, nodes
in their initial states, counters at zero. -/
def initMachine (sd : List NodeDef) : Machine :=
  { trackingDisabled := false
    trackedStack := []
    nodes := sd.map initState
    computeCount := fun _ => 0
    selectorCount := fun _ => 0 }

/-! ## Snapshot cache (`computedMiddleware`)

`proxyCache` is a `WeakMap` from raw state objects to their proxy
views.  Raw states and views are identified by their JS object
identity, modelled as `Nat` ids; building a proxy mints a fresh view
id (`nextId`).  `getStateProxy` is the source function of the same
name; `getState` and the wrapped `subscribe` listener both go through
it. -/

/-- `proxyCache.get(state)`: entries keyed by raw-state identity. -/
def lookupCache : List (Nat × Nat) → Nat → Option Nat
  | [], _ => none
  | (r, v) :: rest, raw => if r = raw then some v else lookupCache rest raw

/-- The middleware's cache state: the `WeakMap` contents plus the
supply of fresh proxy identities. -/
structure ProxyCache where
  entries : List (Nat × Nat)
  nextId : Nat

/-- `getStateProxy` from the source: return the cached view for this
raw state, or build one, remember it, and return it. -/
def getStateProxy (c : ProxyCache) (raw : Nat) : ProxyCache × Nat :=
  match lookupCache c.entries raw with
  | some v => (c, v)
  | none => ({ entries := (raw, c.nextId) :: c.entries, nextId := c.nextId + 1 }, c.nextId)

/-- The wrapped subscribe listener: both the previous and the next raw
snapshot are passed through `getStateProxy` before the listener sees
them. -/
def notifySnapshots (c : ProxyCache) (prevRaw raw : Nat) : ProxyCache × (Nat × Nat) :=
  let r1 := getStateProxy c prevRaw
  let r2 := getStateProxy r1.1 raw
  (r2.1, (r1.2, r2.2))

/-- Any interleaving of `getState` calls for various raw snapshots. -/
def foldGetProxy (c : ProxyCache) : List Nat → ProxyCache
  | [] => c
  | r :: rest => foldGetProxy (getStateProxy c r).1 rest

theorem lookupCache_getStateProxy (c : ProxyCache) (raw : Nat) :
    lookupCache (getStateProxy c raw).1.entries raw = some (getStateProxy c raw).2 := by
  unfold getStateProxy
  rcases h : lookupCache c.entries raw with _ | v
  · simp [lookupCache]
  · simpa using h

theorem lookupCache_mono (c : ProxyCache) (x raw v : Nat)
    (h : lookupCache c.entries raw = some v) :
    lookupCache (getStateProxy c x).1.entries raw = some v := by
  unfold getStateProxy
  rcases hx : lookupCache c.entries x with _ | vx
  · have hne : x ≠ raw := by
      intro he; rw [he, h] at hx; cases hx
    simpa [lookupCache, hne] using h
  · simpa using h

theorem lookupCache_fold (raws : List Nat) :
    ∀ (c : ProxyCache) (raw v : Nat), lookupCache c.entries raw = some v →
      lookupCache (foldGetProxy c raws).entries raw = some v := by
  induction raws with
  | nil => intro c raw v h; simpa [foldGetProxy] using h
  | cons x rest ihx =>
      intro c raw v h
      simpa [foldGetProxy] using ihx _ raw v (lookupCache_mono c x raw v h)

theorem getStateProxy_of_cached {c : ProxyCache} {raw v : Nat}
    (h : lookupCache c.entries raw = some v) : getStateProxy c raw = (c, v) := by
  unfold getStateProxy; rw [h]

/-- C9: the Snapshot Cache is idempotent per raw snapshot: a repeated
`getState` for the same raw state returns the identical view and leaves
the cache unchanged; after any further interleaving of `getState` calls
the cache still maps that raw state to the view built for it first; and
a listener notification involving that raw state hands the listener
that same view. -/
theorem snapshot_cache_idempotent :
    (∀ (c : ProxyCache) (raw : Nat),
        getStateProxy (getStateProxy c raw).1 raw =
          ((getStateProxy c raw).1, (getStateProxy c raw).2)) ∧
    (∀ (c : ProxyCache) (raw : Nat) (others : List Nat),
        lookupCache (foldGetProxy (getStateProxy c raw).1 others).entries raw =
          some (getStateProxy c raw).2) ∧
    (∀ (c : ProxyCache) (prevRaw raw : Nat),
        (notifySnapshots (getStateProxy c raw).1 prevRaw raw).2.2 =
          (getStateProxy c raw).2) := by
  refine ⟨?_, ?_, ?_⟩
  · intro c raw
    exact getStateProxy_of_cached (lookupCache_getStateProxy c raw)
  · intro c raw others
    exact lookupCache_fold others _ raw _ (lookupCache_getStateProxy c raw)
  · intro c prevRaw raw
    simp only [notifySnapshots]
    rw [getStateProxy_of_cached
      (lookupCache_mono _ prevRaw raw _ (lookupCache_getStateProxy c raw))]

/-! ## Claim support: dependency-match fast paths -/

/-- One resolve step of a computed node whose stored record is exactly
`[("a", va)]`, against a view whose field `a` still holds `va` by
identity, from an idle machine (empty stack, tracking enabled): the
cached value is returned, the record and counters are untouched, and
only `prevState` moves to the new view. -/
theorem singleDep_step (comp : Expr) (f : Nat) (va pv : Val) (ps : Option Nat)
    (c0 s0 : Nat → Nat) (V : View) (h : V.fields "a" = .plain va) :
    resolve [.computedN comp] (f+3) 0 V
      ⟨false, [], [.computedS (some ⟨["a"], [va]⟩) pv ps], c0, s0⟩ =
    (⟨false, [], [.computedS (some ⟨["a"], [va]⟩) pv (some V.id)], c0, s0⟩, .ok pv) := by
  by_cases hid : ps = some V.id
  · subst hid
    simp [resolve]
  · simp only [resolve, List.get?]
    rw [if_neg hid]
    simp [depCheck, proxyGet, bindRes, recordRead, h, List.get?]

/-- C1: for an auto-tracked node with a previous dependency record, a
resolve on a non-identical snapshot on which the dependency check finds
no mismatch skips the compute function: the result is the cached
`previousOutput`, and the machine is exactly the dependency check's
machine with only this node's `previousInputIdentity` moved to the new
snapshot (in particular no compute counter moves after the check).
Consequently a derivation that recorded only field `a` never recomputes
across any number of snapshots that keep `a` identical while other
fields change arbitrarily: its counters, record and cached value stay
fixed. -/
theorem computed_dep_match_skips_recompute :
    (∀ (sd : List NodeDef) (fuel i : Nat) (V : View) (m m1 : Machine) (comp : Expr)
       (tr : TrackedDeps) (pv : Val) (ps : Option Nat),
       sd.get? i = some (.computedN comp) →
       m.nodes.get? i = some (.computedS (some tr) pv ps) →
       ps ≠ some V.id →
       depCheck sd fuel tr.keys tr.values V m = (m1, .ok false) →
       m1.nodes.get? i = m.nodes.get? i →
       resolve sd (fuel+1) i V m =
         ({ m1 with nodes := m1.nodes.set i (.computedS (some tr) pv (some V.id)) },
          .ok pv)) ∧
    (∀ (comp : Expr) (f : Nat) (va pv : Val) (ps : Option Nat) (c0 s0 : Nat → Nat)
       (views : List View),
       (∀ V ∈ views, V.fields "a" = FieldVal.plain va) →
       ∃ ps2 : Option Nat,
         resolveSeq [.computedN comp] (f+3) 0 views
           ⟨false, [], [.computedS (some ⟨["a"], [va]⟩) pv ps], c0, s0⟩ =
         ⟨false, [], [.computedS (some ⟨["a"], [va]⟩) pv ps2], c0, s0⟩) := by
  constructor
  · intro sd fuel i V m m1 comp tr pv ps hsd hns hid hdep hkeep
    simp only [resolve, hsd, hns]
    rw [if_neg hid]
    simp only [hdep, bindRes, Bool.false_eq_true, if_false, hkeep, hns]
  · intro comp f va pv ps c0 s0 views hva
    induction views generalizing ps with
    | nil => exact ⟨ps, rfl⟩
    | cons V rest ihv =>
        have hV : V.fields "a" = FieldVal.plain va := hva V (List.mem_cons_self V rest)
        have hrest : ∀ W ∈ rest, W.fields "a" = FieldVal.plain va :=
          fun W hW => hva W (List.mem_cons_of_mem V hW)
        obtain ⟨ps2, hseq⟩ := ihv (some V.id) hrest
        refine ⟨ps2, ?_⟩
        simp only [resolveSeq, singleDep_step comp f va pv ps c0 s0 V hV]
        exact hseq

/-- A view with one interesting field `a`. -/
def viewA (vid : Nat) (a : Val) : View :=
  ⟨vid, fun k => if k = "a" then .plain a else .plain .undef⟩

/-- A view with fields `a` and `b`. -/
def viewAB (vid : Nat) (a b : Val) : View :=
  ⟨vid, fun k => if k = "a" then .plain a else if k = "b" then .plain b else .plain .undef⟩

/-- Zeroed counters. -/
def zeroC : Nat → Nat := fun _ => 0

def c1Sd : List NodeDef := [.computedN (.read "a")]

def c1M : Machine :=
  ⟨false, [], [.computedS (some ⟨["a"], [.num 1]⟩) (.num 1) (some 0)], zeroC, zeroC⟩

theorem computed_dep_match_skips_recompute_witness :
    resolve c1Sd 6 0 (viewA 1 (.num 1)) c1M =
      ({ c1M with
          nodes := c1M.nodes.set 0 (.computedS (some ⟨["a"], [.num 1]⟩) (.num 1) (some 1)) },
       .ok (.num 1)) ∧
    (∃ ps2 : Option Nat,
        resolveSeq c1Sd 8 0 [viewA 1 (.num 1), viewA 2 (.num 1)]
          ⟨false, [], [.computedS (some ⟨["a"], [.num 1]⟩) (.num 1) (some 0)], zeroC, zeroC⟩ =
        ⟨false, [], [.computedS (some ⟨["a"], [.num 1]⟩) (.num 1) ps2], zeroC, zeroC⟩) := by
  constructor
  · exact computed_dep_match_skips_recompute.1 c1Sd 5 0 (viewA 1 (.num 1)) c1M c1M
      (.read "a") ⟨["a"], [.num 1]⟩ (.num 1) (some 0) rfl rfl (by decide) rfl rfl
  · exact computed_dep_match_skips_recompute.2 (.read "a") 5 (.num 1) (.num 1) (some 0)
      zeroC zeroC [viewA 1 (.num 1), viewA 2 (.num 1)]
      (by
        intro V hV
        rcases List.mem_cons.mp hV with rfl | h2
        · rfl
        · rcases List.mem_singleton.mp h2 with rfl
          rfl)

/-! ## Claims about `watch` -/

def c2Sd : List NodeDef := [.watchN (.read "a") (fun v => v) (fun a b => decide (a = b))]

/-- C2: the claim says that after `resolve(V)` the node's
`previousInputIdentity` equals `V`, so a second read of the same view
runs neither selector nor compute.  The `watch` closure declares
`prevState` and compares against it but never assigns it, so the fast
path is dead: a second resolve on the identical view runs the selector
again (count 2), and the node's `prevState` is still unassigned.  (The
compute step happens to run only once here because the re-run selector
returns an identical, truthy selection.) -/
theorem watch_inputIdentity_never_updated :
    (resolve c2Sd 10 0 (viewA 0 (.num 1)) (initMachine c2Sd)).1.selectorCount 0 = 1 ∧
    (resolve c2Sd 10 0 (viewA 0 (.num 1))
        (resolve c2Sd 10 0 (viewA 0 (.num 1)) (initMachine c2Sd)).1).1.selectorCount 0 = 2 ∧
    (resolve c2Sd 10 0 (viewA 0 (.num 1))
        (resolve c2Sd 10 0 (viewA 0 (.num 1)) (initMachine c2Sd)).1).1.nodes =
      [.watchS (.num 1) (.num 1) none] ∧
    (resolve c2Sd 10 0 (viewA 0 (.num 1))
        (resolve c2Sd 10 0 (viewA 0 (.num 1)) (initMachine c2Sd)).1).2 = .ok (.num 1) :=
  ⟨rfl, rfl, rfl, rfl⟩

def c7Sd : List NodeDef := [.watchN (.read "a") (fun v => v) (fun a b => decide (a = b))]

/-- C7: the claim says `watch` recomputes exactly when no previous
selection exists or `eq` fails, for every selection including falsy
ones.  The source gates recomputation on `!prevDeps` (truthiness), so
with the falsy selection `0` the node recomputes on a new snapshot even
though a previous selection exists and `eq` holds: after the first
resolve the stored selection is `0`, yet a resolve on a second view with
the same `a = 0` invokes compute a second time. -/
theorem watch_falsy_selection_recomputes :
    (resolve c7Sd 10 0 (viewA 0 (.num 0)) (initMachine c7Sd)).1.nodes =
      [.watchS (.num 0) (.num 0) none] ∧
    decide ((Val.num 0) = (Val.num 0)) = true ∧
    truthy (.num 0) = false ∧
    (resolve c7Sd 10 0 (viewA 1 (.num 0))
        (resolve c7Sd 10 0 (viewA 0 (.num 0)) (initMachine c7Sd)).1).1.computeCount 0 = 2 :=
  ⟨rfl, rfl, rfl, rfl⟩

/-! ## Claims about the dependency record -/

def c8Sd : List NodeDef := [.computedN (.bin (fun x _ => x) (.read "a") (.read "a"))]

/-- C8 counterexample: the record produced by one evaluation does not
have unique keys: a compute that reads field `a` twice leaves a record
whose key list is `["a", "a"]`. -/
theorem dep_record_duplicate_keys_cex :
    (resolve c8Sd 10 0 (viewA 0 (.num 1)) (initMachine c8Sd)).1.nodes =
      [.computedS (some ⟨["a", "a"], [.num 1, .num 1]⟩) (.num 1) (some 0)] ∧
    ¬ (["a", "a"] : List String).Nodup :=
  ⟨rfl, by decide⟩

/-- C8 amended: the proxy records one (key, value) entry per read in
read order with no deduplication, so a compute that reads the same
plain field twice stores both entries (with the same observed value). -/
theorem dep_record_entry_per_read (f2 : Val → Val → Val) (k : String) (f : Nat)
    (v pv0 : Val) (c0 s0 : Nat → Nat) (V : View)
    (h : V.fields k = .plain v) :
    resolve [.computedN (.bin f2 (.read k) (.read k))] (f+4) 0 V
      ⟨false, [], [.computedS none pv0 none], c0, s0⟩ =
    (⟨false, [], [.computedS (some ⟨[k, k], [v, v]⟩) (f2 v v) (some V.id)], bump c0 0, s0⟩,
     .ok (f2 v v)) := by
  simp [resolve, evalExpr, proxyGet, depCheck, bindRes, tryFinallyPop, recordRead,
    pushFrame, popFrame, h]

theorem dep_record_entry_per_read_witness :
    resolve [.computedN (.bin (fun x _ => x) (.read "a") (.read "a"))] 10 0 (viewA 7 (.num 2))
      ⟨false, [], [.computedS none .undef none], zeroC, zeroC⟩ =
    (⟨false, [], [.computedS (some ⟨["a", "a"], [.num 2, .num 2]⟩) (.num 2) (some 7)],
        bump zeroC 0, zeroC⟩,
     .ok (.num 2)) :=
  dep_record_entry_per_read (fun x _ => x) "a" 6 (.num 2) .undef zeroC zeroC
    (viewA 7 (.num 2)) rfl

/-! ## Claim support: failing compute -/

/-- C4: when an auto-tracked node's recompute path runs and the user
compute raises, the resolve call returns exactly the failing
evaluation's machine with the tracking frame popped (the `finally`) and
the error outcome: no node state is assigned on this exit path, and the
tracking stack is back at its pre-call depth. -/
theorem compute_failure_no_cache_update
    (sd : List NodeDef) (fuel i : Nat) (V : View) (m m1 m3 : Machine) (comp : Expr)
    (prevTracked : Option TrackedDeps) (pv : Val) (ps : Option Nat)
    (hsd : sd.get? i = some (.computedN comp))
    (hns : m.nodes.get? i = some (.computedS prevTracked pv ps))
    (hid : ps ≠ some V.id)
    (hstep : (prevTracked = none ∧ m1 = m) ∨
      (∃ tr, prevTracked = some tr ∧ depCheck sd fuel tr.keys tr.values V m = (m1, .ok true)))
    (hc : evalExpr sd fuel comp V
        (pushFrame { m1 with computeCount := bump m1.computeCount i }) = (m3, .err)) :
    resolve sd (fuel+1) i V m = (popFrame m3, .err) ∧
    (popFrame m3).nodes = m3.nodes ∧
    (popFrame m3).trackedStack.length = m.trackedStack.length := by
  have hm1 : m1.trackedStack.length = m.trackedStack.length := by
    rcases hstep with ⟨_, rfl⟩ | ⟨tr, _, hdep⟩
    · rfl
    · have := (interp_stackOk fuel).2.2.1 sd tr.keys tr.values V m
      rw [hdep] at this
      exact this.1
  have hm3 : m3.trackedStack.length = m1.trackedStack.length + 1 := by
    have := (interp_stackOk fuel).1 sd comp V
      (pushFrame { m1 with computeCount := bump m1.computeCount i })
    rw [hc] at this
    simpa [pushFrame] using this.1
  have hres : resolve sd (fuel+1) i V m = (popFrame m3, .err) := by
    simp only [resolve, hsd, hns]
    rw [if_neg hid]
    rcases hstep with ⟨htr, hm⟩ | ⟨tr, htr, hdep⟩
    · subst htr hm
      simp only [bindRes, eq_self_iff_true, if_true, hc, tryFinallyPop]
    · subst htr
      simp only [hdep, bindRes, eq_self_iff_true, if_true, hc, tryFinallyPop]
  refine ⟨hres, rfl, ?_⟩
  simp only [popFrame, List.length_tail, hm3, hm1, Nat.add_sub_cancel]

def c4Sd : List NodeDef := [.computedN .fail]

theorem compute_failure_no_cache_update_witness :
    (resolve c4Sd 10 0 (viewA 0 (.num 1)) (initMachine c4Sd) =
      (popFrame (pushFrame
        { initMachine c4Sd with computeCount := bump (initMachine c4Sd).computeCount 0 }),
       .err) ∧
     (popFrame (pushFrame
        { initMachine c4Sd with computeCount := bump (initMachine c4Sd).computeCount 0 })).nodes =
       (pushFrame
        { initMachine c4Sd with computeCount := bump (initMachine c4Sd).computeCount 0 }).nodes ∧
     (popFrame (pushFrame
        { initMachine c4Sd with computeCount := bump (initMachine c4Sd).computeCount 0 })).trackedStack.length =
       (initMachine c4Sd).trackedStack.length) ∧
    (resolve c4Sd 10 0 (viewA 0 (.num 1)) (initMachine c4Sd)).1.nodes =
      [.computedS none .undef none] :=
  ⟨compute_failure_no_cache_update c4Sd 9 0 (viewA 0 (.num 1)) (initMachine c4Sd)
      (initMachine c4Sd)
      (pushFrame
        { initMachine c4Sd with computeCount := bump (initMachine c4Sd).computeCount 0 })
      .fail none .undef none rfl rfl (by decide) (Or.inl ⟨rfl, rfl⟩) rfl,
   rfl⟩

/-! ## Claim support: untrack -/

/-- Folding `singleDep_step` over a whole sequence of snapshots that
keep field `a` identical: nothing but `prevState` ever moves. -/
theorem singleDep_seq (comp : Expr) (f : Nat) (va pv : Val) (c0 s0 : Nat → Nat)
    (views : List View) :
    ∀ ps : Option Nat, (∀ V ∈ views, V.fields "a" = FieldVal.plain va) →
      ∃ ps2 : Option Nat,
        resolveSeq [.computedN comp] (f+3) 0 views
          ⟨false, [], [.computedS (some ⟨["a"], [va]⟩) pv ps], c0, s0⟩ =
        ⟨false, [], [.computedS (some ⟨["a"], [va]⟩) pv ps2], c0, s0⟩ := by
  induction views with
  | nil => exact fun ps _ => ⟨ps, rfl⟩
  | cons V rest ihv =>
      intro ps hva
      have hV : V.fields "a" = FieldVal.plain va := hva V (List.mem_cons_self V rest)
      obtain ⟨ps2, hseq⟩ := ihv (some V.id) (fun W hW => hva W (List.mem_cons_of_mem V hW))
      refine ⟨ps2, ?_⟩
      simp only [resolveSeq, singleDep_step comp f va pv ps c0 s0 V hV]
      exact hseq

/-- C5: a derivation reading `a` normally and `b` under `untrack`
records only `a`.  Concretely: (1) a fresh evaluation stores the record
`[("a", va)]` and the value `f2 va vb` — the `b` read is not recorded;
(2) across any sequence of snapshots that keep `a` identical while `b`
(and anything else) changes arbitrarily, the node keeps the stale
cached value and the compute counter never moves; (3) when `a` changes
the node does recompute, reading the current `b`. -/
theorem untrack_excluded_from_dependencies :
    (∀ (f2 : Val → Val → Val) (f : Nat) (va vb pv0 : Val) (c0 s0 : Nat → Nat) (V : View),
       V.fields "a" = FieldVal.plain va → V.fields "b" = FieldVal.plain vb →
       resolve [.computedN (.bin f2 (.read "a") (.untrack (.read "b")))] (f+5) 0 V
         ⟨false, [], [.computedS none pv0 none], c0, s0⟩ =
       (⟨false, [], [.computedS (some ⟨["a"], [va]⟩) (f2 va vb) (some V.id)], bump c0 0, s0⟩,
        .ok (f2 va vb))) ∧
    (∀ (f2 : Val → Val → Val) (f : Nat) (va vb : Val) (ps : Option Nat)
       (c0 s0 : Nat → Nat) (views : List View),
       (∀ V ∈ views, V.fields "a" = FieldVal.plain va) →
       ∃ ps2 : Option Nat,
         resolveSeq [.computedN (.bin f2 (.read "a") (.untrack (.read "b")))] (f+3) 0 views
           ⟨false, [], [.computedS (some ⟨["a"], [va]⟩) (f2 va vb) ps], c0, s0⟩ =
         ⟨false, [], [.computedS (some ⟨["a"], [va]⟩) (f2 va vb) ps2], c0, s0⟩) ∧
    (∀ (f2 : Val → Val → Val) (f : Nat) (va va2 vb2 pv : Val) (ps : Option Nat)
       (c0 s0 : Nat → Nat) (V : View),
       V.fields "a" = FieldVal.plain va2 → V.fields "b" = FieldVal.plain vb2 →
       va2 ≠ va → ps ≠ some V.id →
       resolve [.computedN (.bin f2 (.read "a") (.untrack (.read "b")))] (f+5) 0 V
         ⟨false, [], [.computedS (some ⟨["a"], [va]⟩) pv ps], c0, s0⟩ =
       (⟨false, [], [.computedS (some ⟨["a"], [va2]⟩) (f2 va2 vb2) (some V.id)], bump c0 0, s0⟩,
        .ok (f2 va2 vb2))) := by
  refine ⟨?_, ?_, ?_⟩
  · intro f2 f va vb pv0 c0 s0 V ha hb
    simp [resolve, evalExpr, proxyGet, depCheck, bindRes, tryFinallyPop, recordRead,
      pushFrame, popFrame, ha, hb]
  · intro f2 f va vb ps c0 s0 views hva
    exact singleDep_seq (.bin f2 (.read "a") (.untrack (.read "b"))) f va (f2 va vb)
      c0 s0 views ps hva
  · intro f2 f va va2 vb2 pv ps c0 s0 V ha hb hne hid
    simp only [resolve, List.get?]
    rw [if_neg hid]
    simp [depCheck, proxyGet, evalExpr, bindRes, tryFinallyPop, recordRead,
      pushFrame, popFrame, ha, hb, hne]

theorem untrack_excluded_from_dependencies_witness :
    resolve [.computedN (.bin (fun _ y => y) (.read "a") (.untrack (.read "b")))] 10 0
        (viewAB 0 (.num 1) (.num 2))
        ⟨false, [], [.computedS none .undef none], zeroC, zeroC⟩ =
      (⟨false, [], [.computedS (some ⟨["a"], [.num 1]⟩) (.num 2) (some 0)], bump zeroC 0, zeroC⟩,
       .ok (.num 2)) ∧
    (∃ ps2 : Option Nat,
        resolveSeq [.computedN (.bin (fun _ y => y) (.read "a") (.untrack (.read "b")))] 10 0
          [viewAB 1 (.num 1) (.num 99)]
          ⟨false, [], [.computedS (some ⟨["a"], [.num 1]⟩) (.num 2) (some 0)], zeroC, zeroC⟩ =
        ⟨false, [], [.computedS (some ⟨["a"], [.num 1]⟩) (.num 2) ps2], zeroC, zeroC⟩) ∧
    resolve [.computedN (.bin (fun _ y => y) (.read "a") (.untrack (.read "b")))] 10 0
        (viewAB 2 (.num 5) (.num 7))
        ⟨false, [], [.computedS (some ⟨["a"], [.num 1]⟩) (.num 2) (some 1)], zeroC, zeroC⟩ =
      (⟨false, [], [.computedS (some ⟨["a"], [.num 5]⟩) (.num 7) (some 2)], bump zeroC 0, zeroC⟩,
       .ok (.num 7)) := by
  refine ⟨?_, ?_, ?_⟩
  · exact untrack_excluded_from_dependencies.1 (fun _ y => y) 5 (.num 1) (.num 2) .undef
      zeroC zeroC (viewAB 0 (.num 1) (.num 2)) rfl rfl
  · exact untrack_excluded_from_dependencies.2.1 (fun _ y => y) 7 (.num 1) (.num 2) (some 0)
      zeroC zeroC [viewAB 1 (.num 1) (.num 99)]
      (by
        intro V hV
        rcases List.mem_singleton.mp hV with rfl
        rfl)
  · exact untrack_excluded_from_dependencies.2.2 (fun _ y => y) 5 (.num 1) (.num 5) (.num 7)
      (.num 2) (some 1) zeroC zeroC (viewAB 2 (.num 5) (.num 7)) rfl rfl (by decide) (by decide)

/-! ## Claim C6: nested derivations inside untrack -/

def c6Sd : List NodeDef := [.computedN (.untrack (.read "b")), .computedN (.read "x")]

/-- A view whose field `b` holds the inner node 1 and whose field `x`
is plain. -/
def viewBX (vid : Nat) (x : Val) : View :=
  ⟨vid, fun k => if k = "b" then .node 1 else if k = "x" then .plain x else .plain .undef⟩

/-- C6 counterexample: the inner node (node 1, reading plain field `x`)
is freshly evaluated inside the outer node's `untrack` body.  The claim
says it still builds its own correct dependency record (`[("x", 1)]`)
and recomputes when `x` later changes.  In the code the suppression
flag is global, so the inner node's record is empty, and on a later
snapshot with `x = 2` it returns the stale `1` without running its
compute again. -/
theorem untrack_nested_inner_record_not_tracked_cex :
    (resolve c6Sd 20 0 (viewBX 0 (.num 1)) (initMachine c6Sd)).1.nodes =
      [.computedS (some ⟨[], []⟩) (.num 1) (some 0),
       .computedS (some ⟨[], []⟩) (.num 1) (some 0)] ∧
    (resolve c6Sd 20 1 (viewBX 1 (.num 2))
        (resolve c6Sd 20 0 (viewBX 0 (.num 1)) (initMachine c6Sd)).1).2 = .ok (.num 1) ∧
    (resolve c6Sd 20 1 (viewBX 1 (.num 2))
        (resolve c6Sd 20 0 (viewBX 0 (.num 1)) (initMachine c6Sd)).1).1.computeCount 1 = 1 :=
  ⟨rfl, rfl, rfl⟩

/-- C6 amended: suppression is global for the dynamic extent of
`untrack`: an auto-tracked node freshly and successfully evaluated
while tracking is suppressed stores an empty dependency record (and
hence, by the empty-record behaviour, never recomputes later), instead
of building its own record. -/
theorem untrack_nested_inner_record_empty
    (sd : List NodeDef) (fuel i : Nat) (V : View) (m m' : Machine) (comp : Expr)
    (pv0 v : Val)
    (hsd : sd.get? i = some (.computedN comp))
    (hns : m.nodes.get? i = some (.computedS none pv0 none))
    (hdis : m.trackingDisabled = true)
    (hres : resolve sd (fuel+1) i V m = (m', .ok v)) :
    m'.nodes.get? i = some (.computedS (some ⟨[], []⟩) v (some V.id)) := by
  have hlt : i < m.nodes.length := by
    rw [List.get?_eq_some] at hns
    exact hns.1
  simp only [resolve, hsd, hns] at hres
  rw [if_neg (by simp)] at hres
  simp only [bindRes, eq_self_iff_true, if_true] at hres
  rcases hev : evalExpr sd fuel comp V
      (pushFrame { m with computeCount := bump m.computeCount i }) with ⟨m3, oe⟩
  rw [hev] at hres
  have hsupp := (interp_stackOk fuel).1 sd comp V
    (pushFrame { m with computeCount := bump m.computeCount i })
  rw [hev] at hsupp
  have hstack : m3.trackedStack = TrackedDeps.mk [] [] :: m.trackedStack := by
    have := (hsupp.2.2 (by simpa [pushFrame] using hdis)).1
    simpa [pushFrame] using this
  have hnlen : m3.nodes.length = m.nodes.length := by
    have := hsupp.2.1
    simpa [pushFrame] using this
  cases oe with
  | ok v2 =>
      simp only [tryFinallyPop, Prod.mk.injEq] at hres
      obtain ⟨hm, hv⟩ := hres
      cases hv
      rw [← hm]
      show ((popFrame _).nodes).get? i = _
      simp only [popFrame]
      rw [hstack]
      exact List.get?_set_eq_of_lt _ (by rw [hnlen]; exact hlt)
  | err => simp [tryFinallyPop] at hres
  | oof => simp [tryFinallyPop] at hres

theorem untrack_nested_inner_record_empty_witness :
    (resolve c6Sd 18 1 (viewBX 0 (.num 1))
        { initMachine c6Sd with trackingDisabled := true }).1.nodes.get? 1 =
      some (.computedS (some ⟨[], []⟩) (.num 1) (some 0)) :=
  untrack_nested_inner_record_empty c6Sd 17 1 (viewBX 0 (.num 1))
    { initMachine c6Sd with trackingDisabled := true }
    (resolve c6Sd 18 1 (viewBX 0 (.num 1))
      { initMachine c6Sd with trackingDisabled := true }).1
    (.read "x") .undef (.num 1) rfl rfl rfl rfl

/-! ## Claim C10: empty dependency record -/

/-- C10: a computed node whose stored dependency record is empty never
recomputes again.  (1) On an identical snapshot the fast path returns
the cached value untouched; (2) on any other snapshot the empty check
loop finds no mismatch, so the cached value is returned, only
`prevState` moves, and the compute counter is untouched; (3) hence over
any sequence of snapshots the node keeps its first value and its
compute counter; and (4) the premise is realisable: a fresh node whose
whole compute body runs under `untrack` stores exactly the empty
record on success. -/
theorem empty_record_never_recomputes :
    (∀ (sd : List NodeDef) (fuel i : Nat) (V : View) (m : Machine) (comp : Expr)
       (pv : Val) (ps : Option Nat),
       sd.get? i = some (.computedN comp) →
       m.nodes.get? i = some (.computedS (some ⟨[], []⟩) pv ps) →
       ps = some V.id →
       resolve sd (fuel+2) i V m = (m, .ok pv)) ∧
    (∀ (sd : List NodeDef) (fuel i : Nat) (V : View) (m : Machine) (comp : Expr)
       (pv : Val) (ps : Option Nat),
       sd.get? i = some (.computedN comp) →
       m.nodes.get? i = some (.computedS (some ⟨[], []⟩) pv ps) →
       ps ≠ some V.id →
       resolve sd (fuel+2) i V m =
         ({ m with nodes := m.nodes.set i (.computedS (some ⟨[], []⟩) pv (some V.id)) },
          .ok pv)) ∧
    (∀ (sd : List NodeDef) (fuel i : Nat) (comp : Expr) (pv : Val)
       (views : List View) (m : Machine) (ps : Option Nat),
       sd.get? i = some (.computedN comp) →
       m.nodes.get? i = some (.computedS (some ⟨[], []⟩) pv ps) →
       ∃ ps2 : Option Nat,
         (resolveSeq sd (fuel+2) i views m).nodes.get? i =
           some (.computedS (some ⟨[], []⟩) pv ps2) ∧
         (resolveSeq sd (fuel+2) i views m).computeCount = m.computeCount) ∧
    (∀ (sd : List NodeDef) (fuel i : Nat) (V : View) (m m' : Machine) (e : Expr)
       (pv0 v : Val),
       sd.get? i = some (.computedN (.untrack e)) →
       m.nodes.get? i = some (.computedS none pv0 none) →
       resolve sd (fuel+2) i V m = (m', .ok v) →
       m'.nodes.get? i = some (.computedS (some ⟨[], []⟩) v (some V.id))) := by
  have hfast : ∀ (sd : List NodeDef) (fuel i : Nat) (V : View) (m : Machine) (comp : Expr)
      (pv : Val) (ps : Option Nat),
      sd.get? i = some (.computedN comp) →
      m.nodes.get? i = some (.computedS (some ⟨[], []⟩) pv ps) →
      ps = some V.id →
      resolve sd (fuel+2) i V m = (m, .ok pv) := by
    intro sd fuel i V m comp pv ps hsd hns hid
    simp only [resolve, hsd, hns]
    rw [if_pos hid]
  have hslow : ∀ (sd : List NodeDef) (fuel i : Nat) (V : View) (m : Machine) (comp : Expr)
      (pv : Val) (ps : Option Nat),
      sd.get? i = some (.computedN comp) →
      m.nodes.get? i = some (.computedS (some ⟨[], []⟩) pv ps) →
      ps ≠ some V.id →
      resolve sd (fuel+2) i V m =
        ({ m with nodes := m.nodes.set i (.computedS (some ⟨[], []⟩) pv (some V.id)) },
         .ok pv) := by
    intro sd fuel i V m comp pv ps hsd hns hid
    simp only [resolve, hsd, hns]
    rw [if_neg hid]
    simp only [depCheck, bindRes, Bool.false_eq_true, if_false, hns]
  refine ⟨hfast, hslow, ?_, ?_⟩
  · intro sd fuel i comp pv views
    induction views with
    | nil => exact fun m ps _ hns => ⟨ps, by simpa [resolveSeq] using hns, rfl⟩
    | cons V rest ihv =>
        intro m ps hsd hns
        by_cases hid : ps = some V.id
        · obtain ⟨ps2, hn2, hc2⟩ := ihv m ps hsd hns
          refine ⟨ps2, ?_, ?_⟩
          · simpa [resolveSeq, hfast sd fuel i V m comp pv ps hsd hns hid] using hn2
          · simpa [resolveSeq, hfast sd fuel i V m comp pv ps hsd hns hid] using hc2
        · have hlt : i < m.nodes.length := by
            rw [List.get?_eq_some] at hns
            exact hns.1
          have hstep := hslow sd fuel i V m comp pv ps hsd hns hid
          have hns2 : ({ m with nodes := (m.nodes.set i (.computedS (some ⟨[], []⟩) pv (some V.id))) } : Machine).nodes.get? i = some (.computedS (some ⟨[], []⟩) pv (some V.id)) := by
            exact List.get?_set_eq_of_lt _ hlt
          obtain ⟨ps2, hn2, hc2⟩ := ihv _ (some V.id) hsd hns2
          refine ⟨ps2, ?_, ?_⟩
          · simpa [resolveSeq, hstep] using hn2
          · simpa [resolveSeq, hstep] using hc2
  · intro sd fuel i V m m' e pv0 v hsd hns hres
    have hlt : i < m.nodes.length := by
      rw [List.get?_eq_some] at hns
      exact hns.1
    simp only [resolve, hsd, hns] at hres
    rw [if_neg (by simp)] at hres
    simp only [bindRes, eq_self_iff_true, if_true] at hres
    simp only [evalExpr] at hres
    rcases hev : evalExpr sd fuel e V
        { (pushFrame { m with computeCount := bump m.computeCount i }) with
          trackingDisabled := true } with ⟨mr, or⟩
    rw [hev] at hres
    have hsupp := (interp_stackOk fuel).1 sd e V
      { (pushFrame { m with computeCount := bump m.computeCount i }) with
        trackingDisabled := true }
    rw [hev] at hsupp
    have hstack : mr.trackedStack = TrackedDeps.mk [] [] :: m.trackedStack := by
      have := (hsupp.2.2 rfl).1
      simpa [pushFrame] using this
    have hnlen : mr.nodes.length = m.nodes.length := by
      have := hsupp.2.1
      simpa [pushFrame] using this
    cases or with
    | ok v2 =>
        simp only [tryFinallyPop, Prod.mk.injEq] at hres
        obtain ⟨hm, hv⟩ := hres
        cases hv
        rw [← hm]
        show ((popFrame _).nodes).get? i = _
        simp only [popFrame]
        rw [hstack]
        exact List.get?_set_eq_of_lt _ (by rw [hnlen]; exact hlt)
    | err => simp [tryFinallyPop] at hres
    | oof => simp [tryFinallyPop] at hres

def c10Sd : List NodeDef := [.computedN (.untrack (.read "b"))]

theorem empty_record_never_recomputes_witness :
    resolve c10Sd 10 0 (viewAB 3 (.num 1) (.num 1)) ⟨false, [],
        [.computedS (some ⟨[], []⟩) (.num 7) (some 3)], zeroC, zeroC⟩ =
      (⟨false, [], [.computedS (some ⟨[], []⟩) (.num 7) (some 3)], zeroC, zeroC⟩, .ok (.num 7)) ∧
    resolve c10Sd 10 0 (viewAB 4 (.num 2) (.num 5)) ⟨false, [],
        [.computedS (some ⟨[], []⟩) (.num 7) (some 3)], zeroC, zeroC⟩ =
      (⟨false, [], ([NodeState.computedS (some ⟨[], []⟩) (.num 7) (some 3)].set 0
          (.computedS (some ⟨[], []⟩) (.num 7) (some 4))), zeroC, zeroC⟩, .ok (.num 7)) ∧
    (∃ ps2 : Option Nat,
      (resolveSeq c10Sd 10 0 [viewAB 4 (.num 2) (.num 5), viewAB 5 (.num 9) (.num 9)]
        ⟨false, [], [.computedS (some ⟨[], []⟩) (.num 7) (some 3)], zeroC, zeroC⟩).nodes.get? 0 =
        some (.computedS (some ⟨[], []⟩) (.num 7) ps2) ∧
      (resolveSeq c10Sd 10 0 [viewAB 4 (.num 2) (.num 5), viewAB 5 (.num 9) (.num 9)]
        ⟨false, [], [.computedS (some ⟨[], []⟩) (.num 7) (some 3)], zeroC, zeroC⟩).computeCount =
        zeroC) ∧
    (resolve c10Sd 10 0 (viewAB 6 (.num 1) (.num 1)) (initMachine c10Sd)).1.nodes.get? 0 =
      some (.computedS (some ⟨[], []⟩) (.num 1) (some 6)) := by
  refine ⟨?_, ?_, ?_, ?_⟩
  · exact empty_record_never_recomputes.1 c10Sd 8 0 (viewAB 3 (.num 1) (.num 1))
      ⟨false, [], [.computedS (some ⟨[], []⟩) (.num 7) (some 3)], zeroC, zeroC⟩
      (.untrack (.read "b")) (.num 7) (some 3) rfl rfl rfl
  · exact empty_record_never_recomputes.2.1 c10Sd 8 0 (viewAB 4 (.num 2) (.num 5))
      ⟨false, [], [.computedS (some ⟨[], []⟩) (.num 7) (some 3)], zeroC, zeroC⟩
      (.untrack (.read "b")) (.num 7) (some 3) rfl rfl (by decide)
  · exact empty_record_never_recomputes.2.2.1 c10Sd 8 0 (.untrack (.read "b")) (.num 7)
      [viewAB 4 (.num 2) (.num 5), viewAB 5 (.num 9) (.num 9)]
      ⟨false, [], [.computedS (some ⟨[], []⟩) (.num 7) (some 3)], zeroC, zeroC⟩
      (some 3) rfl rfl
  · exact empty_record_never_recomputes.2.2.2 c10Sd 8 0 (viewAB 6 (.num 1) (.num 1))
      (initMachine c10Sd)
      (resolve c10Sd 10 0 (viewAB 6 (.num 1) (.num 1)) (initMachine c10Sd)).1
      (.read "b") .undef (.num 1) rfl rfl rfl

/-! ## Claim C3: chained derivations -/

/-- `n => n + 1` on numbers. -/
def inc1 : Val → Val
  | .num n => .num (n + 1)
  | v => v

/-- Store with `b = computed(s => inc(s.a))` at node 0 and
`c = computed(s => inc(s.b))` at node 1. -/
def chainSd : List NodeDef := [.computedN (.un inc1 (.read "a")), .computedN (.un inc1 (.read "b"))]

/-- Views over `chainSd`: plain root `a`, derived `b` and `c`, and an
unrelated plain field `d`. -/
def chainView (vid : Nat) (a d : Int) : View :=
  ⟨vid, fun k => if k = "a" then .plain (.num a) else if k = "b" then .node 0
    else if k = "c" then .node 1 else if k = "d" then .plain (.num d) else .plain .undef⟩

/-- One "render" of a snapshot: read `c` then `b` through the proxy. -/
def readCB (V : View) (m : Machine) : Machine :=
  (proxyGet chainSd 30 "b" V (proxyGet chainSd 30 "c" V m).1).1

def chainM1 : Machine := readCB (chainView 0 1 0) (initMachine chainSd)
def chainM2 : Machine := readCB (chainView 1 2 0) chainM1
def chainM3 : Machine := readCB (chainView 2 2 5) chainM2

/-- C3: (1) when a proxy read hits a field holding a derivation node
and the node resolves to `v`, the proxy hands back `v` and records the
pair `(k, v)` — the resolved output, not the node — into the top frame;
(2) the recording step appends exactly one entry to the top frame when
tracking is active; (3) in the concrete two-stage chain
`b = inc(a), c = inc(b)`, reading `c` and `b` on each snapshot
recomputes both nodes exactly once per update of the root `a`
(counters go 1,1 then 2,2), and an update of the unrelated field `d`
recomputes neither (counters stay 2,2), with `c`'s record holding `b`'s
resolved output. -/
theorem chained_derivation_records_resolved_output :
    (∀ (sd : List NodeDef) (fuel : Nat) (k : String) (V : View) (i : Nat)
       (m m1 : Machine) (v : Val),
       V.fields k = FieldVal.node i →
       resolve sd fuel i V m = (m1, .ok v) →
       proxyGet sd (fuel+1) k V m = (recordRead k v m1, .ok v)) ∧
    (∀ (k : String) (v : Val) (m : Machine) (t : TrackedDeps) (rest : List TrackedDeps),
       m.trackingDisabled = false →
       m.trackedStack = t :: rest →
       recordRead k v m =
         { m with trackedStack := TrackedDeps.mk (t.keys ++ [k]) (t.values ++ [v]) :: rest }) ∧
    (chainM1.computeCount 0 = 1 ∧ chainM1.computeCount 1 = 1 ∧
     chainM2.computeCount 0 = 2 ∧ chainM2.computeCount 1 = 2 ∧
     chainM3.computeCount 0 = 2 ∧ chainM3.computeCount 1 = 2 ∧
     chainM3.nodes =
       [.computedS (some ⟨["a"], [.num 2]⟩) (.num 3) (some 2),
        .computedS (some ⟨["b"], [.num 3]⟩) (.num 4) (some 2)]) := by
  refine ⟨?_, ?_, ?_⟩
  · intro sd fuel k V i m m1 v hf hres
    simp only [proxyGet, hf, hres, bindRes]
  · intro k v m t rest hflag hstack
    simp only [recordRead, hflag, hstack]
  · exact ⟨rfl, rfl, rfl, rfl, rfl, rfl, rfl⟩

theorem chained_derivation_records_resolved_output_witness :
    proxyGet chainSd 30 "b" (chainView 0 1 0) (initMachine chainSd) =
      (recordRead "b" (.num 2)
        (resolve chainSd 29 0 (chainView 0 1 0) (initMachine chainSd)).1,
       .ok (.num 2)) ∧
    recordRead "x" (.num 3) ⟨false, [⟨[], []⟩], [], zeroC, zeroC⟩ =
      ⟨false, [⟨["x"], [.num 3]⟩], [], zeroC, zeroC⟩ := by
  constructor
  · exact chained_derivation_records_resolved_output.1 chainSd 29 "b" (chainView 0 1 0) 0
      (initMachine chainSd) (resolve chainSd 29 0 (chainView 0 1 0) (initMachine chainSd)).1
      (.num 2) rfl rfl
  · exact chained_derivation_records_resolved_output.2.1 "x" (.num 3)
      ⟨false, [⟨[], []⟩], [], zeroC, zeroC⟩ ⟨[], []⟩ [] rfl rfl

end ZC
